import Mathlib

/-!
Verification of the session/resource-management layer of the web-llm
low-level window.ai API (window_ai_ll.ts) against its specification.

The model is a shallow embedding: the mutable MlcAiSequence / engine state
becomes explicit state passing, the external execution pipeline (prefill,
forwardTokens, sampleTokenFromLogits) is an environment of abstract
functions, and JavaScript numbers are exact reals extended with the IEEE
special values reachable in this code (NaN and the infinities), with no
rounding.
-/

namespace WindowAiLl

/-- Errors thrown by window_ai_ll.ts, one constructor per throw site
(the string is the JS Error message). -/
inductive Err where
  /-- "Prompt size not initialized yet" -/
  | promptSizeUninit : Err
  /-- "Can't get logits" (prefill returned nothing) -/
  | cantGetLogits : Err
  /-- "Cannot advance a different AISequence" -/
  | differentSeq : Err
  /-- "Backtracking not implemented" -/
  | backtrackNotImpl : Err
  /-- "Not implemented" (clone) -/
  | cloneNotImpl : Err
  /-- "No logits" -/
  | noLogits : Err
  /-- rejection propagated from the external forwardTokens call -/
  | forwardFailed : Err
deriving DecidableEq, Repr

/-- Engine configuration (the fields of MLCEngine.config used here). -/
structure EngineCfg where
  context_window_size : ℤ
deriving DecidableEq, Repr

/-- The MLCEngine2 state visible to this layer: the single-slot KV-cache
claimant pointer _window_ai_seq (modelled by the claimant's session id)
and the pipeline lowLevel flag. -/
structure Engine where
  cfg : EngineCfg
  _window_ai_seq : Option ℕ
  lowLevel : Bool
deriving DecidableEq, Repr

/-- State of one MlcAiSequence. Object identity of the JS object is
modelled by the session id sid (distinct sessions have distinct sids).
The tvmjs NDArray logits buffer is modelled by its contents; none means
the undefined / disposed buffer. -/
structure MlcAiSequence where
  sid : ℕ
  _tokens : List ℕ
  _promptSize : ℤ
  _logits : Option (List ℝ)

/-- The external execution pipeline (engine.prefill, pipeline.forwardTokens,
pipeline.sampleTokenFromLogits) as an abstract environment. A none result
models a null return / rejected promise. -/
structure Env where
  prefillResult : Option (List ℝ)
  filledKVCacheLength : ℕ
  forwardTokens : List ℕ → Option (List ℝ)
  sampleTokenFromLogits : List ℝ → Option ℝ → Option (List ℕ) → ℕ

/-- Constructor: new MlcAiSequence(engine, options). -/
def newSequence (sid : ℕ) : MlcAiSequence :=
  { sid := sid, _tokens := [], _promptSize := 0, _logits := none }

/-- get tokens(): returns this._tokens.slice(), whose contents equal the
internal history (freshness of the copy is modelled separately, in the
JsArr heap model below). -/
def tokens (s : MlcAiSequence) : List ℕ :=
  s._tokens

/-- get tokensSoFar(): this._tokens.length. -/
def tokensSoFar (s : MlcAiSequence) : ℕ :=
  s._tokens.length

/-- get promptSize(): throws if this._promptSize == 0. -/
def promptSize (s : MlcAiSequence) : Except Err ℤ :=
  if s._promptSize = 0 then Except.error Err.promptSizeUninit
  else Except.ok s._promptSize

/-- get maxTokens(): engine.config.context_window_size - this._promptSize. -/
def maxTokens (eng : Engine) (s : MlcAiSequence) : ℤ :=
  eng.cfg.context_window_size - s._promptSize

/-- get tokensLeft(): this.maxTokens - this.tokensSoFar. -/
def tokensLeft (eng : Engine) (s : MlcAiSequence) : ℤ :=
  maxTokens eng s - (tokensSoFar s : ℤ)

/-- advance(appendTokens, backtrack = 0). Mirrors MlcAiSequence.advance:
first the priming / claim check phase (JS !this._promptSize is
_promptSize == 0; priming unconditionally takes the KV-cache claim and
sets pipeline.lowLevel), then the backtrack splice-and-throw, then the
append / forward phase. The returned Option Err is the thrown error, and
the session / engine states returned are the states at the time of the
throw (the JS code mutates before some throws). -/
def advance (env : Env) (eng : Engine) (s : MlcAiSequence)
    (appendTokens : List ℕ) (backtrack : ℕ) :
    MlcAiSequence × Engine × Option Err :=
  let step1 : MlcAiSequence × Engine × Option Err :=
    if s._promptSize = 0 then
      let eng1 : Engine := { eng with _window_ai_seq := some s.sid, lowLevel := true }
      match env.prefillResult with
      | none => ({ s with _promptSize := -1 }, eng1, some Err.cantGetLogits)
      | some lg =>
          ({ s with _promptSize := (env.filledKVCacheLength : ℤ), _logits := some lg },
            eng1, none)
    else if eng._window_ai_seq ≠ some s.sid then (s, eng, some Err.differentSeq)
    else (s, eng, none)
  match step1 with
  | (s1, eng1, some e) => (s1, eng1, some e)
  | (s1, eng1, none) =>
      if 0 < backtrack then
        ({ s1 with _tokens := s1._tokens.take (s1._tokens.length - backtrack) }, eng1,
          some Err.backtrackNotImpl)
      else if appendTokens.length > 0 then
        match env.forwardTokens appendTokens with
        | none =>
            ({ s1 with _tokens := s1._tokens ++ appendTokens, _logits := none }, eng1,
              some Err.forwardFailed)
        | some lg =>
            ({ s1 with _tokens := s1._tokens ++ appendTokens, _logits := some lg }, eng1,
              none)
      else (s1, eng1, none)

/-- logits(): throws "No logits" when this._logits is undefined, otherwise
returns a host copy (toArray) of the buffer contents. It performs no
priming. -/
def logits (s : MlcAiSequence) : Except Err (List ℝ) :=
  match s._logits with
  | none => Except.error Err.noLogits
  | some lg => Except.ok lg

/-- sample(options): throws "No logits" when this._logits is undefined,
otherwise samples from a clone of the cached logits without mutating the
session. It performs no priming. -/
def sample (env : Env) (s : MlcAiSequence) (temperature : Option ℝ)
    (mask : Option (List ℕ)) : Except Err ℕ :=
  match s._logits with
  | none => Except.error Err.noLogits
  | some lg => Except.ok (env.sampleTokenFromLogits lg temperature mask)

/-- destroy(): disposes the logits buffer, and clears the engine claimant
slot when this session holds it. It never throws. -/
def destroy (eng : Engine) (s : MlcAiSequence) : MlcAiSequence × Engine :=
  let s1 : MlcAiSequence := { s with _logits := none }
  if eng._window_ai_seq = some s.sid then
    (s1, { eng with _window_ai_seq := none })
  else (s1, eng)

/-! Concrete fixtures used in closed evaluation theorems and witnesses. -/

/-- A primed session holding the claim, with two committed tokens. -/
def seqA : MlcAiSequence :=
  { sid := 0, _tokens := [1, 2], _promptSize := 5, _logits := some [0] }

/-- Engine whose claimant slot holds seqA. -/
def engA : Engine :=
  { cfg := { context_window_size := 100 }, _window_ai_seq := some 0, lowLevel := true }

/-- An environment in which prefill and forward both succeed. -/
def envA : Env :=
  { prefillResult := some [0], filledKVCacheLength := 3,
    forwardTokens := fun _ => some [0], sampleTokenFromLogits := fun _ _ _ => 0 }

/-- A primed session holding the claim, with empty committed history. -/
def seqW : MlcAiSequence :=
  { sid := 0, _tokens := [], _promptSize := 5, _logits := some [0] }

/-- An engine with no claimant yet. -/
def engB0 : Engine :=
  { cfg := { context_window_size := 100 }, _window_ai_seq := none, lowLevel := false }

/-!
JavaScript number model for the probability utilities: exact reals
extended with the IEEE special values reachable in logProbs and surprise
(NaN and the two infinities); no rounding is modelled.
-/

/-- A JavaScript double as used by logProbs and surprise. -/
inductive XR where
  | nan : XR
  | ninf : XR
  | pinf : XR
  | fin : ℝ → XR

noncomputable section

/-- JS strict greater-than; every comparison involving NaN is false. -/
def gtX : XR → XR → Bool
  | XR.nan, _ => false
  | _, XR.nan => false
  | XR.pinf, XR.pinf => false
  | XR.pinf, _ => true
  | XR.ninf, _ => false
  | XR.fin _, XR.pinf => false
  | XR.fin _, XR.ninf => true
  | XR.fin a, XR.fin b => if b < a then true else false

/-- JS addition. -/
def addX : XR → XR → XR
  | XR.nan, _ => XR.nan
  | _, XR.nan => XR.nan
  | XR.pinf, XR.ninf => XR.nan
  | XR.ninf, XR.pinf => XR.nan
  | XR.pinf, _ => XR.pinf
  | XR.ninf, _ => XR.ninf
  | XR.fin _, XR.pinf => XR.pinf
  | XR.fin _, XR.ninf => XR.ninf
  | XR.fin a, XR.fin b => XR.fin (a + b)

/-- JS subtraction. -/
def subX : XR → XR → XR
  | XR.nan, _ => XR.nan
  | _, XR.nan => XR.nan
  | XR.pinf, XR.pinf => XR.nan
  | XR.ninf, XR.ninf => XR.nan
  | XR.pinf, _ => XR.pinf
  | XR.ninf, _ => XR.ninf
  | XR.fin _, XR.pinf => XR.ninf
  | XR.fin _, XR.ninf => XR.pinf
  | XR.fin a, XR.fin b => XR.fin (a - b)

/-- JS Math.exp. -/
def expX : XR → XR
  | XR.nan => XR.nan
  | XR.ninf => XR.fin 0
  | XR.pinf => XR.pinf
  | XR.fin a => XR.fin (Real.exp a)

/-- JS Math.log (log of a negative number is NaN, log of zero is
minus infinity). -/
def logX : XR → XR
  | XR.nan => XR.nan
  | XR.ninf => XR.nan
  | XR.pinf => XR.pinf
  | XR.fin a =>
      if a < 0 then XR.nan
      else if a = 0 then XR.ninf
      else XR.fin (Real.log a)

/-- JS division, for the sign cases reachable here (negative zero is not
modelled; the dividends and divisors produced by surprise are
non-negative). -/
def divX : XR → XR → XR
  | XR.nan, _ => XR.nan
  | _, XR.nan => XR.nan
  | XR.pinf, XR.pinf => XR.nan
  | XR.pinf, XR.ninf => XR.nan
  | XR.ninf, XR.pinf => XR.nan
  | XR.ninf, XR.ninf => XR.nan
  | XR.pinf, XR.fin b => if b < 0 then XR.ninf else XR.pinf
  | XR.ninf, XR.fin b => if b < 0 then XR.pinf else XR.ninf
  | XR.fin _, XR.pinf => XR.fin 0
  | XR.fin _, XR.ninf => XR.fin 0
  | XR.fin a, XR.fin b =>
      if b = 0 then (if a = 0 then XR.nan else if a < 0 then XR.ninf else XR.pinf)
      else XR.fin (a / b)

end

/-- isAllowed(mask, i): tests bit (i & 31) of the 32-bit word
mask[i >>> 5] (an out-of-range read yields 0, as in JS). -/
def isAllowed (mask : List ℕ) (i : ℕ) : Bool :=
  Nat.testBit (mask.getD (i / 32) 0 % 2 ^ 32) (i % 32)

/-- First loop of logProbs: overwrite masked-out entries with
-Infinity (JS l[i] = -Infinity), producing the working array. -/
def maskApply (mask : Option (List ℕ)) : ℕ → List ℝ → List XR
  | _, [] => []
  | i, x :: r =>
      (match mask with
       | some m => if !(isAllowed m i) then XR.ninf else XR.fin x
       | none => XR.fin x) :: maskApply mask (i + 1) r

noncomputable section

/-- The running-max loop (let max = -Infinity; if (l[i] > max) max = l[i]). -/
def jsMaxGo (m : XR) : List XR → XR
  | [] => m
  | x :: r => jsMaxGo (if gtX x m then x else m) r

/-- The sum loop (let sum = 0; sum += Math.exp(l[i] - max)). -/
def jsExpSumGo (mx : XR) (s : XR) : List XR → XR
  | [] => s
  | x :: r => jsExpSumGo mx (addX s (expX (subX x mx))) r

/-- logProbs(mask?) of MlcAiSequence as a function of the logits-buffer
contents (the source operates on the copy obtained from this.logits()):
mask write and max in one pass, then the exp sum, then the subtraction
of logSum from every entry. -/
def logProbs (l : List ℝ) (mask : Option (List ℕ)) : List XR :=
  let lx := maskApply mask 0 l
  let mx := jsMaxGo XR.ninf lx
  let s := jsExpSumGo mx (XR.fin 0) lx
  let logSum := addX mx (logX s)
  lx.map (fun x => subX x logSum)

/-- The combined second loop of surprise, accumulating sum and sumMasked
(sumMasked collects the entries the mask does not allow). -/
def surSumsGo (mask : List ℕ) (mx : XR) : ℕ → List ℝ → XR × XR → XR × XR
  | _, [], p => p
  | i, x :: r, p =>
      let term := expX (subX (XR.fin x) mx)
      surSumsGo mask mx (i + 1) r
        (addX p.1 term, if !(isAllowed mask i) then addX p.2 term else p.2)

/-- surprise(mask) of MlcAiSequence as a function of the logits-buffer
contents: max loop over the raw logits, then sum and sumMasked with the
shared max, then sum / sumMasked. -/
def surprise (l : List ℝ) (mask : List ℕ) : XR :=
  let mx := jsMaxGo XR.ninf (l.map XR.fin)
  let p := surSumsGo mask mx 0 l (XR.fin 0, XR.fin 0)
  divX p.1 p.2

end

/-!
Specification-side definitions, written after the words of spec sections
4.4 and 8 (masked log-softmax and the surprise ratio), for the refinement
statements comparing the code with the spec formulas.
-/

/-- Whether the optional mask allows index i (no mask allows everything). -/
def allowedB (mask : Option (List ℕ)) (i : ℕ) : Bool :=
  match mask with
  | none => true
  | some m => isAllowed m i

/-- The allowed entries of the list, indices counted from a running
start. -/
def allowedValsFrom (mask : Option (List ℕ)) : ℕ → List ℝ → List ℝ
  | _, [] => []
  | i, x :: r =>
      if allowedB mask i then x :: allowedValsFrom mask (i + 1) r
      else allowedValsFrom mask (i + 1) r

/-- The allowed entries of the logits vector. -/
def allowedVals (mask : Option (List ℕ)) (l : List ℝ) : List ℝ :=
  allowedValsFrom mask 0 l

noncomputable section

/-- Left fold computing a running maximum, as the max loop does. -/
def foldMaxR (a : ℝ) : List ℝ → ℝ
  | [] => a
  | x :: r => foldMaxR (if a < x then x else a) r

/-- The spec's max over the allowed logits (masked-out entries treated
as minus infinity); junk value 0 when nothing is allowed. -/
def specMaxAllowed (mask : Option (List ℕ)) (l : List ℝ) : ℝ :=
  match allowedVals mask l with
  | [] => 0
  | h :: t => foldMaxR h t

/-- The spec's logSumExp = max + ln(sum of exp(logit - max)), the
masked-out logits contributing exp(-infinity) = 0. -/
def specLogSumExp (mask : Option (List ℕ)) (l : List ℝ) : ℝ :=
  specMaxAllowed mask l +
    Real.log (((allowedVals mask l).map
      (fun a => Real.exp (a - specMaxAllowed mask l))).sum)

/-- The spec's masked log-softmax: allowed entry i is logit i minus
logSumExp, masked-out entries are minus infinity. -/
def logProbsSpecFrom (mask : Option (List ℕ)) (ls : ℝ) : ℕ → List ℝ → List XR
  | _, [] => []
  | i, x :: r =>
      (if allowedB mask i then XR.fin (x - ls) else XR.ninf)
        :: logProbsSpecFrom mask ls (i + 1) r

/-- The spec's masked log-softmax over a logits vector. -/
def logProbsSpec (l : List ℝ) (mask : Option (List ℕ)) : List XR :=
  logProbsSpecFrom mask (specLogSumExp mask l) 0 l

/-- Exponential of one result entry (exp of minus infinity is 0; junk 0
on NaN and plus infinity, which the summed no-mask results never are). -/
def expVal : XR → ℝ
  | XR.fin a => Real.exp a
  | _ => 0

/-- The spec's total probability mass: sum of exp over all logits. -/
def allExpSum (l : List ℝ) : ℝ := (l.map Real.exp).sum

/-- Running sum of exp over the masked-out logits, indices counted from
a running start. -/
def maskedOutExpSumFrom (mask : List ℕ) : ℕ → List ℝ → ℝ
  | _, [] => 0
  | i, x :: r =>
      (if isAllowed mask i then 0 else Real.exp x) + maskedOutExpSumFrom mask (i + 1) r

/-- The spec's masked-out probability mass: sum of exp over the logits
the mask does not allow. -/
def maskedOutExpSum (l : List ℝ) (mask : List ℕ) : ℝ :=
  maskedOutExpSumFrom mask 0 l

/-- The shifted masked-out sum the code's loop accumulates: sum of
exp(logit - M) over the masked-out entries. -/
def sumExpMaskedFrom (mask : List ℕ) (M : ℝ) : ℕ → List ℝ → ℝ
  | _, [] => 0
  | i, x :: r =>
      (if isAllowed mask i then 0 else Real.exp (x - M)) + sumExpMaskedFrom mask M (i + 1) r

end

/-!
Bulk token-metadata encoding (AIModel.tokenInfo). The external tokenizer
(encode, decode, idToToken, getVocabSize) is abstract. JS string
primitives are modelled over the character list of the string.
-/

/-- The external tokenizer interface consumed by tokenInfo. -/
structure Tok where
  getVocabSize : ℕ
  decode : List ℕ → String
  idToToken : ℕ → String
  encode : String → List ℕ

/-- The synthetic tokenizer prefix "\x02". -/
def TOKENIZER_PREFIX : String := "\x02"

/-- JS String.prototype.includes for a single character. -/
def jsContains (s : String) (c : Char) : Bool :=
  s.toList.contains c

/-- JS String.prototype.startsWith. -/
def jsStartsWith (s p : String) : Bool :=
  p.toList.isPrefixOf s.toList

/-- JS String.prototype.endsWith. -/
def jsEndsWith (s p : String) : Bool :=
  p.toList.isSuffixOf s.toList

/-- isSpecialToken(s) from tokenInfo. -/
def isSpecialToken (s : String) : Bool :=
  s == "<s>" || s == "</s>" || s == "<pad>" || s == "<unk>"
    || (jsStartsWith s "<|" && jsEndsWith s "|>")

/-- UTF-8 encoding of one character (what TextEncoder emits). -/
def utf8Char (c : Char) : List ℕ :=
  let n := c.toNat
  if n < 0x80 then [n]
  else if n < 0x800 then [0xC0 + n / 64, 0x80 + n % 64]
  else if n < 0x10000 then [0xE0 + n / 4096, 0x80 + n / 64 % 64, 0x80 + n % 64]
  else [0xF0 + n / 262144, 0x80 + n / 4096 % 64, 0x80 + n / 64 % 64, 0x80 + n % 64]

/-- TextEncoder().encode: the UTF-8 bytes of a string. -/
def utf8Bytes (s : String) : List ℕ :=
  s.toList.flatMap utf8Char

/-- Value of a hexadecimal digit character, none otherwise. -/
def hexVal (c : Char) : Option ℕ :=
  if '0' ≤ c ∧ c ≤ '9' then some (c.toNat - 48)
  else if 'a' ≤ c ∧ c ≤ 'f' then some (c.toNat - 87)
  else if 'A' ≤ c ∧ c ≤ 'F' then some (c.toNat - 55)
  else none

/-- Accumulate the leading run of hexadecimal digits. -/
def hexAcc (acc : ℕ) : List Char → ℕ
  | [] => acc
  | c :: cs =>
      match hexVal c with
      | some v => hexAcc (acc * 16 + v) cs
      | none => acc

/-- Whether the next character is a hexadecimal digit. -/
def headIsHex : List Char → Bool
  | [] => false
  | c :: _ => (hexVal c).isSome

/-- Sign handling of JS parseInt. -/
def jsSign : List Char → ℤ × List Char
  | '-' :: r => (-1, r)
  | '+' :: r => (1, r)
  | cs => (1, cs)

/-- parseInt with radix 16 also strips one leading 0x / 0X. -/
def jsStrip0x : List Char → List Char
  | '0' :: 'x' :: r => r
  | '0' :: 'X' :: r => r
  | cs => cs

/-- JS parseInt(s, 16): skip leading whitespace, optional sign, optional
0x, then take the leading run of hex digits; none models NaN (no
digits). -/
def jsParseIntHex (s : String) : Option ℤ :=
  let p := jsSign (s.toList.dropWhile Char.isWhitespace)
  let cs := jsStrip0x p.2
  if headIsHex cs then some (p.1 * (hexAcc 0 cs : ℤ)) else none

/-- JS ToUint8 as performed by new Uint8Array([v]): NaN becomes 0, other
values are taken mod 256. -/
def toUint8 (v : Option ℤ) : ℕ :=
  ((v.getD 0) % 256).toNat

/-- One iteration of the tokenInfo loop before the length check: the
special flag and the byte representation of token i, or the
invalid-token error. s is the decode of [tokPref, i] with the first
character stripped. -/
def tokenEntry (t : Tok) (tokPref : ℕ) (i : ℕ) : Except String (Bool × List ℕ) :=
  let s := (t.decode [tokPref, i]).drop 1
  if jsContains s (Char.ofNat 0xFFFD) then
    let id := t.idToToken i
    if jsStartsWith id "<0x" then
      Except.ok (false, [toUint8 (jsParseIntHex (id.drop 3))])
    else if id == s then Except.ok (false, utf8Bytes s)
    else Except.error "Invalid token"
  else Except.ok (isSpecialToken s, utf8Bytes s)

/-- The record pushed for one token: flags byte (0x40 when special),
byte length, then the bytes (empty in the error case, which a
successful run never reaches). -/
def entryRecord (t : Tok) (tokPref : ℕ) (i : ℕ) : List ℕ :=
  match tokenEntry t tokPref i with
  | Except.ok en => (if en.1 then 0x40 else 0) :: en.2.length :: en.2
  | Except.error _ => []

/-- The loop of tokenInfo over the remaining vocabulary ids, carrying
the encodedTokenizer accumulator. -/
def tokenInfoGo (t : Tok) (tokPref : ℕ) : List ℕ → List ℕ → Except String (List ℕ)
  | acc, [] => Except.ok acc
  | acc, i :: rest =>
      match tokenEntry t tokPref i with
      | Except.error e => Except.error e
      | Except.ok en =>
          if 0xff < en.2.length then Except.error "Token too long"
          else tokenInfoGo t tokPref
            (acc ++ (if en.1 then 0x40 else 0) :: en.2.length :: en.2) rest

/-- tokenInfo(): the binary bulk token metadata, one record per
vocabulary id in increasing order (the prefix token is the last id of
the encoded synthetic prefix, 0 on an empty encoding as in JS). -/
def tokenInfo (t : Tok) : Except String (List ℕ) :=
  tokenInfoGo t ((t.encode TOKENIZER_PREFIX).getLastD 0) [] (List.range t.getVocabSize)

/-- A tiny concrete tokenizer: id 0 decodes to "a", id 1 to the special
token "<s>". -/
def tokA : Tok :=
  { getVocabSize := 2,
    decode := fun l => if l.getLastD 0 = 0 then "?a" else "?<s>",
    idToToken := fun _ => "",
    encode := fun _ => [7] }

/-- A tokenizer whose only token is 300 bytes long. -/
def tokLong : Tok :=
  { getVocabSize := 1,
    decode := fun _ => String.mk ('?' :: List.replicate 300 'a'),
    idToToken := fun _ => "",
    encode := fun _ => [7] }

/-!
Heap model for the freshness of the tokens getter: this._tokens.slice()
allocates a new array. JS arrays are references into a store of arrays;
slice copies the contents to a fresh address.
-/

/-- A store of JS number arrays addressed by allocation index, together
with the next fresh address. -/
structure Heap where
  store : ℕ → List ℕ
  next : ℕ

/-- A session object as the holder of the reference to its private
_tokens array. -/
structure SeqRef where
  tokensAddr : ℕ

/-- Well-formedness: the internal array's address was allocated. -/
abbrev heapWF (h : Heap) (s : SeqRef) : Prop :=
  s.tokensAddr < h.next

/-- get tokens(): return this._tokens.slice() — allocate a fresh array
whose contents are copied from the internal one, returning its
reference and the new heap. -/
def tokensGet (h : Heap) (s : SeqRef) : ℕ × Heap :=
  (h.next,
   { store := fun a => if a = h.next then h.store s.tokensAddr else h.store a,
     next := h.next + 1 })

/-- A caller mutating the array behind a reference: write value v at
index j. -/
def setElem (h : Heap) (addr j v : ℕ) : Heap :=
  { h with store := fun a => if a = addr then (h.store addr).set j v else h.store a }

/-- Concrete heap for the witness: one allocated array [1, 2]. -/
def heapW : Heap := { store := fun _ => [1, 2], next := 1 }

/-- The session holding address 0 in heapW. -/
def seqRefW : SeqRef := { tokensAddr := 0 }

/-- C1: advance with backtrack greater than 0 does throw the explicit
backtracking-not-implemented error, but it first splices the last
backtrack tokens out of the committed token history, so the previously
committed tokens do not remain queryable as they were: on a session
holding [1, 2], advance([], 1) throws and leaves the history at [1]. -/
theorem backtrack_error_truncates_history :
    (advance envA engA seqA [] 1).2.2 = some Err.backtrackNotImpl ∧
    tokens (advance envA engA seqA [] 1).1 = [1] ∧
    tokens seqA = [1, 2] := by
  refine ⟨rfl, rfl, rfl⟩

/-- C3: on an Unprimed session (no prefill performed), logits() and
sample() do not implicitly perform advance([]): even in an environment
where priming would succeed (prefill returns logits), both throw the
no-logits error, contradicting the documented implicit-priming behavior
of the interface. -/
theorem logits_sample_do_not_prime :
    logits (newSequence 0) = Except.error Err.noLogits ∧
    sample envA (newSequence 0) none none = Except.error Err.noLogits :=
  ⟨rfl, rfl⟩

/-- C5 counterexample: after destroy() the session is not in a terminal
state in which every operation fails: reading tokens still returns the
committed history, promptSize still returns the recorded prompt size, and
tokensLeft still computes, none of them failing with any error. -/
theorem destroyed_session_still_readable :
    tokens (destroy engA seqA).1 = [1, 2] ∧
    promptSize (destroy engA seqA).1 = Except.ok 5 ∧
    tokensLeft (destroy engA seqA).2 (destroy engA seqA).1 = 93 := by
  refine ⟨rfl, rfl, rfl⟩

/-- C5 amended: destroy() releases the logits buffer and the claim, after
which logits() and sample() fail with the no-logits error and advance()
on a primed session fails with the conflicting-session error, while
tokens, promptSize and tokensLeft still succeed with their pre-destroy
values; a never-primed session that is destroyed can afterwards still
prime successfully. -/
theorem destroy_non_terminal (eng : Engine) (s : MlcAiSequence)
    (hp : s._promptSize ≠ 0) :
    logits (destroy eng s).1 = Except.error Err.noLogits ∧
    (∀ (env : Env) (t : Option ℝ) (m : Option (List ℕ)),
       sample env (destroy eng s).1 t m = Except.error Err.noLogits) ∧
    (∀ (env : Env) (ts : List ℕ) (bt : ℕ),
       advance env (destroy eng s).2 (destroy eng s).1 ts bt
         = ((destroy eng s).1, (destroy eng s).2, some Err.differentSeq)) ∧
    tokens (destroy eng s).1 = tokens s ∧
    promptSize (destroy eng s).1 = Except.ok s._promptSize ∧
    tokensLeft (destroy eng s).2 (destroy eng s).1 = tokensLeft eng s ∧
    (∀ (env : Env) (lg : List ℝ) (C : MlcAiSequence), C._promptSize = 0 →
       env.prefillResult = some lg →
       (advance env (destroy eng s).2 C [] 0).2.2 = none) := by
  have hclaim : (destroy eng s).2._window_ai_seq ≠ some s.sid := by
    by_cases h : eng._window_ai_seq = some s.sid <;> simp [destroy, h]
  have hsid : (destroy eng s).1.sid = s.sid := by
    by_cases h : eng._window_ai_seq = some s.sid <;> simp [destroy, h]
  have hlog : (destroy eng s).1._logits = none := by
    by_cases h : eng._window_ai_seq = some s.sid <;> simp [destroy, h]
  have hps : (destroy eng s).1._promptSize = s._promptSize := by
    by_cases h : eng._window_ai_seq = some s.sid <;> simp [destroy, h]
  have htok : (destroy eng s).1._tokens = s._tokens := by
    by_cases h : eng._window_ai_seq = some s.sid <;> simp [destroy, h]
  have hcfg : (destroy eng s).2.cfg = eng.cfg := by
    by_cases h : eng._window_ai_seq = some s.sid <;> simp [destroy, h]
  refine ⟨?_, ?_, ?_, ?_, ?_, ?_, ?_⟩
  · simp [logits, hlog]
  · intro env t m; simp [sample, hlog]
  · intro env ts bt
    have hps' : ¬((destroy eng s).1._promptSize = 0) := by rw [hps]; exact hp
    have hcl' : (destroy eng s).2._window_ai_seq ≠ some (destroy eng s).1.sid := by
      rw [hsid]; exact hclaim
    simp [advance, hps', hcl']
  · simp [tokens, htok]
  · simp [promptSize, hps, hp]
  · simp [tokensLeft, maxTokens, tokensSoFar, hps, htok, hcfg]
  · intro env lg C hC hpre
    simp [advance, hC, hpre]

/-- C5 witness for destroy_non_terminal at a concrete primed session. -/
theorem destroy_non_terminal_witness :
    logits (destroy engA seqA).1 = Except.error Err.noLogits ∧
    advance envA (destroy engA seqA).2 (destroy engA seqA).1 [3] 0
      = ((destroy engA seqA).1, (destroy engA seqA).2, some Err.differentSeq) ∧
    tokens (destroy engA seqA).1 = tokens seqA := by
  have h := destroy_non_terminal engA seqA (by decide)
  exact ⟨h.1, h.2.2.1 envA [3] 0, h.2.2.2.1⟩

/-- C6: for an Active session holding the KV-cache claim, advance with
tokens [t1, t2] succeeds, commits exactly those tokens and stores the
forward-pass logits; a following advance([], 0) is a strict no-op: it
returns the state completely unchanged (same tokens, same logits buffer)
and throws nothing, for any environment. -/
theorem advance_noop_after_append
    (env env2 : Env) (eng : Engine) (s : MlcAiSequence)
    (hp : s._promptSize ≠ 0) (hc : eng._window_ai_seq = some s.sid)
    (ht : s._tokens = []) (t1 t2 : ℕ) (lg : List ℝ)
    (hf : env.forwardTokens [t1, t2] = some lg) :
    (advance env eng s [t1, t2] 0).2.2 = none ∧
    tokens (advance env eng s [t1, t2] 0).1 = [t1, t2] ∧
    logits (advance env eng s [t1, t2] 0).1 = Except.ok lg ∧
    advance env2 (advance env eng s [t1, t2] 0).2.1 (advance env eng s [t1, t2] 0).1 [] 0
      = ((advance env eng s [t1, t2] 0).1, (advance env eng s [t1, t2] 0).2.1, none) := by
  have h1 : advance env eng s [t1, t2] 0
      = ({ s with _tokens := [t1, t2], _logits := some lg }, eng, none) := by
    simp [advance, hp, hc, hf, ht]
  rw [h1]
  refine ⟨rfl, rfl, rfl, ?_⟩
  simp [advance, hp, hc]

/-- C6 witness: the no-op idempotence at a concrete primed session. -/
theorem advance_noop_after_append_witness :
    (advance envA engA seqW [10, 11] 0).2.2 = none ∧
    tokens (advance envA engA seqW [10, 11] 0).1 = [10, 11] ∧
    logits (advance envA engA seqW [10, 11] 0).1 = Except.ok [0] ∧
    advance envA (advance envA engA seqW [10, 11] 0).2.1
        (advance envA engA seqW [10, 11] 0).1 [] 0
      = ((advance envA engA seqW [10, 11] 0).1,
         (advance envA engA seqW [10, 11] 0).2.1, none) :=
  advance_noop_after_append envA envA engA seqW (by decide) rfl rfl 10 11 [0] rfl

/-- C2: priming session A claims the KV cache, priming B displaces A;
afterwards every advance of the displaced A (in any environment, and in
any engine state whose claimant is not A) fails with the
conflicting-session error and leaves A and the engine untouched, while
B still holds the claim and B.advance with non-empty tokens succeeds;
the displaced A's token history and last logits stay readable. -/
theorem conflicting_session
    (env : Env) (eng : Engine) (A B : MlcAiSequence)
    (hA : A._promptSize = 0) (hB : B._promptSize = 0) (hAB : A.sid ≠ B.sid)
    (lg0 : List ℝ) (hpre : env.prefillResult = some lg0)
    (hlen : env.filledKVCacheLength ≠ 0)
    (ts : List ℕ) (hts : ts ≠ []) (lg1 : List ℝ)
    (hfwd : env.forwardTokens ts = some lg1) :
    (advance env eng A [] 0).2.2 = none ∧
    (advance env (advance env eng A [] 0).2.1 B [] 0).2.2 = none ∧
    (∀ (env2 : Env) (eng2 : Engine) (ts2 : List ℕ) (bt : ℕ),
       eng2._window_ai_seq ≠ some A.sid →
       advance env2 eng2 (advance env eng A [] 0).1 ts2 bt
         = ((advance env eng A [] 0).1, eng2, some Err.differentSeq)) ∧
    (advance env (advance env eng A [] 0).2.1 B [] 0).2.1._window_ai_seq = some B.sid ∧
    some B.sid ≠ some A.sid ∧
    (advance env (advance env (advance env eng A [] 0).2.1 B [] 0).2.1
        (advance env (advance env eng A [] 0).2.1 B [] 0).1 ts 0).2.2 = none ∧
    tokens (advance env eng A [] 0).1 = tokens A ∧
    logits (advance env eng A [] 0).1 = Except.ok lg0 := by
  have h1 : advance env eng A [] 0
      = ({ A with _promptSize := (env.filledKVCacheLength : ℤ), _logits := some lg0 },
         { eng with _window_ai_seq := some A.sid, lowLevel := true }, none) := by
    simp [advance, hA, hpre]
  have h2 : advance env { eng with _window_ai_seq := some A.sid, lowLevel := true } B [] 0
      = ({ B with _promptSize := (env.filledKVCacheLength : ℤ), _logits := some lg0 },
         { eng with _window_ai_seq := some B.sid, lowLevel := true }, none) := by
    simp [advance, hB, hpre]
  have hps : ((env.filledKVCacheLength : ℤ)) ≠ 0 := Int.natCast_ne_zero.mpr hlen
  have hl : 0 < ts.length := List.length_pos.mpr hts
  refine ⟨?_, ?_, ?_, ?_, ?_, ?_, ?_, ?_⟩
  · simp [h1]
  · simp [h1, h2]
  · intro env2 eng2 ts2 bt hne
    simp only [h1]
    simp [advance, hps, hne]
  · simp [h1, h2]
  · exact fun h => hAB (Option.some.inj h).symm
  · have h3 : advance env { eng with _window_ai_seq := some B.sid, lowLevel := true }
        { B with _promptSize := (env.filledKVCacheLength : ℤ), _logits := some lg0 } ts 0
        = ({ B with
              _tokens := B._tokens ++ ts,
              _promptSize := (env.filledKVCacheLength : ℤ), _logits := some lg1 },
           { eng with _window_ai_seq := some B.sid, lowLevel := true }, none) := by
      simp [advance, hps, hl, hfwd]
    simp [h1, h2, h3]
  · simp [h1, tokens]
  · simp [h1, logits]

/-- C2 witness: the displacement scenario run concretely, with session
ids 0 and 1 on a fresh engine. -/
theorem conflicting_session_witness :
    (advance envA engB0 (newSequence 0) [] 0).2.2 = none ∧
    (advance envA (advance envA engB0 (newSequence 0) [] 0).2.1 (newSequence 1) [] 0).2.2
      = none ∧
    advance envA
        (advance envA (advance envA engB0 (newSequence 0) [] 0).2.1 (newSequence 1) [] 0).2.1
        (advance envA engB0 (newSequence 0) [] 0).1 [1] 0
      = ((advance envA engB0 (newSequence 0) [] 0).1,
         (advance envA (advance envA engB0 (newSequence 0) [] 0).2.1 (newSequence 1) [] 0).2.1,
         some Err.differentSeq) ∧
    (advance envA
        (advance envA (advance envA engB0 (newSequence 0) [] 0).2.1 (newSequence 1) [] 0).2.1
        (advance envA (advance envA engB0 (newSequence 0) [] 0).2.1 (newSequence 1) [] 0).1
        [1] 0).2.2 = none ∧
    logits (advance envA engB0 (newSequence 0) [] 0).1 = Except.ok [0] := by
  have h := conflicting_session envA engB0 (newSequence 0) (newSequence 1) rfl rfl
    (by decide) [0] rfl (by decide) [1] (by simp) [0] rfl
  exact ⟨h.1, h.2.1,
    h.2.2.1 envA _ [1] 0 (by decide),
    h.2.2.2.2.2.1, h.2.2.2.2.2.2.2⟩

/-- C8: destroy() is idempotent: a second destroy() throws nothing (it
throws nothing by construction) and changes neither the session nor the
engine; the first destroy() releases the logits buffer and, when this
session holds the KV-cache claim, clears it, so any session constructed
afterwards can prime, acquiring the claim with no contention error. -/
theorem destroy_idempotent (eng : Engine) (s : MlcAiSequence) :
    destroy (destroy eng s).2 (destroy eng s).1 = destroy eng s ∧
    (destroy eng s).1._logits = none ∧
    (eng._window_ai_seq = some s.sid → (destroy eng s).2._window_ai_seq = none) ∧
    (∀ (env : Env) (lg : List ℝ) (C : MlcAiSequence), C._promptSize = 0 →
       env.prefillResult = some lg →
       (advance env (destroy eng s).2 C [] 0).2.2 = none ∧
       (advance env (destroy eng s).2 C [] 0).2.1._window_ai_seq = some C.sid) := by
  refine ⟨?_, ?_, ?_, ?_⟩
  · by_cases h : eng._window_ai_seq = some s.sid <;> simp [destroy, h]
  · by_cases h : eng._window_ai_seq = some s.sid <;> simp [destroy, h]
  · intro h; simp [destroy, h]
  · intro env lg C hC hpre
    constructor <;> simp [advance, hC, hpre]

/-- C8 witness: double destroy at a concrete claim-holding session, and a
fresh session priming right after the first destroy. -/
theorem destroy_idempotent_witness :
    destroy (destroy engA seqA).2 (destroy engA seqA).1 = destroy engA seqA ∧
    (destroy engA seqA).2._window_ai_seq = none ∧
    (advance envA (destroy engA seqA).2 (newSequence 7) [] 0).2.2 = none ∧
    (advance envA (destroy engA seqA).2 (newSequence 7) [] 0).2.1._window_ai_seq = some 7 := by
  have h := destroy_idempotent engA seqA
  exact ⟨h.1, h.2.2.1 rfl, (h.2.2.2 envA [0] (newSequence 7) rfl rfl).1,
    (h.2.2.2 envA [0] (newSequence 7) rfl rfl).2⟩

/-! Helper lemmas about the JS numeric loops. -/

theorem gtX_ninf (m : XR) : gtX XR.ninf m = false := by
  cases m <;> rfl

theorem jsMaxGo_skip (m : XR) (r : List XR) :
    jsMaxGo m (XR.ninf :: r) = jsMaxGo m r := by
  simp [jsMaxGo, gtX_ninf]

theorem jsMaxGo_fin (r : List ℝ) :
    ∀ a : ℝ, jsMaxGo (XR.fin a) (r.map XR.fin) = XR.fin (foldMaxR a r) := by
  induction r with
  | nil => intro a; rfl
  | cons x t ih =>
      intro a
      by_cases h : a < x <;> simp [jsMaxGo, foldMaxR, gtX, h, ih]

theorem maskApply_cons (mask : Option (List ℕ)) (i : ℕ) (x : ℝ) (r : List ℝ) :
    maskApply mask i (x :: r)
      = (if allowedB mask i then XR.fin x else XR.ninf) :: maskApply mask (i + 1) r := by
  cases mask with
  | none => simp [maskApply, allowedB]
  | some m => by_cases h : isAllowed m i <;> simp [maskApply, allowedB, h]

theorem jsMaxGo_maskApply (mask : Option (List ℕ)) :
    ∀ (l : List ℝ) (i : ℕ) (m : XR),
      jsMaxGo m (maskApply mask i l)
        = jsMaxGo m ((allowedValsFrom mask i l).map XR.fin) := by
  intro l
  induction l with
  | nil => intro i m; rfl
  | cons x r ih =>
      intro i m
      rw [maskApply_cons]
      by_cases h : allowedB mask i
      · simp [h, allowedValsFrom, jsMaxGo, ih]
      · simp [h, allowedValsFrom, jsMaxGo_skip, ih]

theorem jsExpSumGo_maskApply (mask : Option (List ℕ)) (M : ℝ) :
    ∀ (l : List ℝ) (i : ℕ) (c : ℝ),
      jsExpSumGo (XR.fin M) (XR.fin c) (maskApply mask i l)
        = XR.fin (c + ((allowedValsFrom mask i l).map (fun a => Real.exp (a - M))).sum) := by
  intro l
  induction l with
  | nil => intro i c; simp [jsExpSumGo, allowedValsFrom]
  | cons x r ih =>
      intro i c
      rw [maskApply_cons]
      by_cases h : allowedB mask i
      · rw [if_pos h]
        show jsExpSumGo (XR.fin M) (XR.fin (c + Real.exp (x - M))) (maskApply mask (i + 1) r)
          = _
        rw [ih]
        simp [allowedValsFrom, h]
        ring
      · rw [if_neg h]
        show jsExpSumGo (XR.fin M) (XR.fin (c + 0)) (maskApply mask (i + 1) r) = _
        rw [ih]
        simp [allowedValsFrom, h]

theorem maskApply_map_sub (mask : Option (List ℕ)) (ls : ℝ) :
    ∀ (l : List ℝ) (i : ℕ),
      (maskApply mask i l).map (fun x => subX x (XR.fin ls))
        = logProbsSpecFrom mask ls i l := by
  intro l
  induction l with
  | nil => intro i; rfl
  | cons x r ih =>
      intro i
      rw [maskApply_cons]
      by_cases h : allowedB mask i
      · rw [if_pos h, List.map_cons, ih]
        simp [logProbsSpecFrom, h, subX]
      · rw [if_neg h, List.map_cons, ih]
        simp [logProbsSpecFrom, h, subX]

theorem expSum_pos (v : List ℝ) (M : ℝ) (h : v ≠ []) :
    0 < ((v.map (fun a => Real.exp (a - M))).sum) := by
  apply List.sum_pos
  · intro x hx
    obtain ⟨a, _, rfl⟩ := List.mem_map.mp hx
    exact Real.exp_pos _
  · simpa using h

theorem ne_nil_of_allowedVals (mask : Option (List ℕ)) (l : List ℝ)
    (h : allowedVals mask l ≠ []) : l ≠ [] := by
  intro hl
  subst hl
  exact h rfl

theorem allowedValsFrom_none :
    ∀ (l : List ℝ) (i : ℕ), allowedValsFrom none i l = l := by
  intro l
  induction l with
  | nil => intro i; rfl
  | cons x r ih => intro i; simp [allowedValsFrom, allowedB, ih]

theorem sum_map_div (v : List ℝ) (f : ℝ → ℝ) (c : ℝ) :
    (v.map (fun x => f x / c)).sum = (v.map f).sum / c := by
  induction v with
  | nil => simp
  | cons x r ih => simp [ih, add_div]

theorem specFrom_none_map_expVal (ls : ℝ) :
    ∀ (l : List ℝ) (i : ℕ),
      ((logProbsSpecFrom none ls i l).map expVal).sum
        = (l.map (fun x => Real.exp (x - ls))).sum := by
  intro l
  induction l with
  | nil => intro i; rfl
  | cons x r ih => intro i; simp [logProbsSpecFrom, allowedB, expVal, ih]

/-- Core refinement lemma: with at least one allowed index, the code's
logProbs equals the spec's masked log-softmax. -/
theorem logProbs_spec_of_ne (l : List ℝ) (mask : Option (List ℕ))
    (h : allowedVals mask l ≠ []) : logProbs l mask = logProbsSpec l mask := by
  obtain ⟨a, t, hav⟩ : ∃ a t, allowedVals mask l = a :: t := by
    cases hv : allowedVals mask l with
    | nil => exact absurd hv h
    | cons a t => exact ⟨a, t, rfl⟩
  have hM : specMaxAllowed mask l = foldMaxR a t := by
    simp [specMaxAllowed, hav]
  have hmax : jsMaxGo XR.ninf (maskApply mask 0 l) = XR.fin (foldMaxR a t) := by
    rw [jsMaxGo_maskApply]
    show jsMaxGo XR.ninf ((allowedVals mask l).map XR.fin) = XR.fin (foldMaxR a t)
    rw [hav, List.map_cons]
    exact jsMaxGo_fin t a
  have hS : jsExpSumGo (XR.fin (foldMaxR a t)) (XR.fin 0) (maskApply mask 0 l)
      = XR.fin (((allowedVals mask l).map
          (fun x => Real.exp (x - foldMaxR a t))).sum) := by
    rw [jsExpSumGo_maskApply]
    show XR.fin (0 + ((allowedVals mask l).map (fun x => Real.exp (x - foldMaxR a t))).sum)
      = _
    rw [zero_add]
  have hSpos : 0 < ((allowedVals mask l).map
      (fun x => Real.exp (x - foldMaxR a t))).sum := by
    apply expSum_pos
    rw [hav]
    exact List.cons_ne_nil a t
  have hlog : logX (XR.fin (((allowedVals mask l).map
      (fun x => Real.exp (x - foldMaxR a t))).sum))
      = XR.fin (Real.log (((allowedVals mask l).map
          (fun x => Real.exp (x - foldMaxR a t))).sum)) := by
    simp [logX, not_lt.mpr hSpos.le, hSpos.ne']
  simp only [logProbs, hmax, hS, hlog, addX]
  rw [maskApply_map_sub]
  simp [logProbsSpec, specLogSumExp, hM]

theorem logProbs_none_expSum (l : List ℝ) (h : l ≠ []) :
    ((logProbs l none).map expVal).sum = 1 := by
  have hav : allowedVals none l = l := allowedValsFrom_none l 0
  have h1 : logProbs l none = logProbsSpec l none := by
    apply logProbs_spec_of_ne
    rw [hav]
    exact h
  rw [h1]
  have hS : 0 < ((allowedVals none l).map
      (fun x => Real.exp (x - specMaxAllowed none l))).sum := by
    apply expSum_pos
    rw [hav]
    exact h
  rw [logProbsSpec, specFrom_none_map_expVal]
  have key : ∀ x : ℝ, Real.exp (x - specLogSumExp none l)
      = Real.exp (x - specMaxAllowed none l)
        / (((allowedVals none l).map
            (fun y => Real.exp (y - specMaxAllowed none l))).sum) := by
    intro x
    rw [specLogSumExp, show x - (specMaxAllowed none l
        + Real.log (((allowedVals none l).map
            (fun y => Real.exp (y - specMaxAllowed none l))).sum))
      = (x - specMaxAllowed none l)
        - Real.log (((allowedVals none l).map
            (fun y => Real.exp (y - specMaxAllowed none l))).sum) by ring]
    rw [Real.exp_sub, Real.exp_log hS]
  simp only [key]
  rw [sum_map_div, hav] at *
  exact div_self (ne_of_gt hS)

/-- C7 (amended): for every finite logits vector and optional mask with
at least one allowed index, logProbs computes exactly the spec's
numerically-stable masked log-softmax (masked-out entries treated as
minus infinity before max and sum, ending at minus infinity in the
result, every allowed entry i equal to logit i minus
(max + ln(sum of exp(logit j - max)))); with no mask the exponentials of
the result sum to exactly 1. -/
theorem logProbs_matches_spec (l : List ℝ) (mask : Option (List ℕ))
    (h : allowedVals mask l ≠ []) :
    logProbs l mask = logProbsSpec l mask ∧
    ((logProbs l none).map expVal).sum = 1 :=
  ⟨logProbs_spec_of_ne l mask h,
   logProbs_none_expSum l (ne_nil_of_allowedVals mask l h)⟩

/-- C7 counterexample: under a mask that excludes every index, the
masked-out entries of the result are NaN, not minus infinity (the
shared max stays -infinity and the sum becomes NaN); and on the empty
logits vector the exponentials of the unmasked result sum to 0, not to
1 within 0.00001. -/
theorem logProbs_all_masked_nan :
    logProbs [0] (some [0]) = [XR.nan] ∧
    logProbs [0] (some [0]) ≠ [XR.ninf] ∧
    ((logProbs ([] : List ℝ) none).map expVal).sum = 0 := by
  have h0 : isAllowed [0] 0 = false := by decide
  refine ⟨?_, ?_, ?_⟩
  · simp [logProbs, maskApply, jsMaxGo, jsExpSumGo, gtX, addX, subX, expX, logX, h0]
  · simp [logProbs, maskApply, jsMaxGo, jsExpSumGo, gtX, addX, subX, expX, logX, h0]
  · simp [logProbs, maskApply, jsMaxGo, jsExpSumGo]

/-- C7 witness: the refinement at the one-entry vector with an
all-allowing mask. -/
theorem logProbs_matches_spec_witness :
    logProbs [0] (some [1]) = logProbsSpec [0] (some [1]) ∧
    ((logProbs ([0] : List ℝ) none).map expVal).sum = 1 := by
  have hA : isAllowed [1] 0 = true := by decide
  have hav : allowedVals (some [1]) [(0 : ℝ)] = [0] := by
    simp [allowedVals, allowedValsFrom, allowedB, hA]
  exact logProbs_matches_spec [0] (some [1])
    (by rw [hav]; exact List.cons_ne_nil 0 [])

/-! Helper lemmas for surprise. -/

theorem surSumsGo_fin (mask : List ℕ) (M : ℝ) :
    ∀ (l : List ℝ) (i : ℕ) (c d : ℝ),
      surSumsGo mask (XR.fin M) i l (XR.fin c, XR.fin d)
        = (XR.fin (c + (l.map (fun x => Real.exp (x - M))).sum),
           XR.fin (d + sumExpMaskedFrom mask M i l)) := by
  intro l
  induction l with
  | nil => intro i c d; simp [surSumsGo, sumExpMaskedFrom]
  | cons x r ih =>
      intro i c d
      by_cases h : isAllowed mask i
      · have hstep : surSumsGo mask (XR.fin M) i (x :: r) (XR.fin c, XR.fin d)
            = surSumsGo mask (XR.fin M) (i + 1) r
                (XR.fin (c + Real.exp (x - M)), XR.fin d) := by
          simp [surSumsGo, h, addX, expX, subX]
        rw [hstep, ih]
        simp [sumExpMaskedFrom, h, Prod.ext_iff]
        ring
      · have hstep : surSumsGo mask (XR.fin M) i (x :: r) (XR.fin c, XR.fin d)
            = surSumsGo mask (XR.fin M) (i + 1) r
                (XR.fin (c + Real.exp (x - M)), XR.fin (d + Real.exp (x - M))) := by
          simp [surSumsGo, h, addX, expX, subX]
        rw [hstep, ih]
        simp [sumExpMaskedFrom, h, Prod.ext_iff]
        constructor <;> ring

theorem sumExpMaskedFrom_eq (mask : List ℕ) (M : ℝ) :
    ∀ (l : List ℝ) (i : ℕ),
      sumExpMaskedFrom mask M i l = maskedOutExpSumFrom mask i l / Real.exp M := by
  intro l
  induction l with
  | nil => intro i; simp [sumExpMaskedFrom, maskedOutExpSumFrom]
  | cons x r ih =>
      intro i
      by_cases h : isAllowed mask i <;>
        simp [sumExpMaskedFrom, maskedOutExpSumFrom, h, ih, add_div, Real.exp_sub]

theorem expShiftSum_eq (M : ℝ) (l : List ℝ) :
    (l.map (fun x => Real.exp (x - M))).sum = allExpSum l / Real.exp M := by
  simp only [Real.exp_sub]
  rw [sum_map_div]
  rfl

theorem sumExpMaskedFrom_zero (mask : List ℕ) (M : ℝ) :
    ∀ (l : List ℝ) (i : ℕ), (∀ k, k < l.length → isAllowed mask (i + k) = true) →
      sumExpMaskedFrom mask M i l = 0 := by
  intro l
  induction l with
  | nil => intro i _; rfl
  | cons x r ih =>
      intro i h
      have h0 : isAllowed mask i = true := by simpa using h 0 (by simp)
      have hr : ∀ k, k < r.length → isAllowed mask (i + 1 + k) = true := by
        intro k hk
        have hx := h (k + 1) (by simpa using Nat.succ_lt_succ hk)
        rwa [show i + (k + 1) = i + 1 + k by ring] at hx
      simp [sumExpMaskedFrom, h0, ih (i + 1) hr]

theorem sumExpMaskedFrom_all (mask : List ℕ) (M : ℝ) :
    ∀ (l : List ℝ) (i : ℕ), (∀ k, k < l.length → isAllowed mask (i + k) = false) →
      sumExpMaskedFrom mask M i l = (l.map (fun x => Real.exp (x - M))).sum := by
  intro l
  induction l with
  | nil => intro i _; rfl
  | cons x r ih =>
      intro i h
      have h0 : isAllowed mask i = false := by simpa using h 0 (by simp)
      have hr : ∀ k, k < r.length → isAllowed mask (i + 1 + k) = false := by
        intro k hk
        have hx := h (k + 1) (by simpa using Nat.succ_lt_succ hk)
        rwa [show i + (k + 1) = i + 1 + k by ring] at hx
      simp [sumExpMaskedFrom, h0, ih (i + 1) hr]

theorem surprise_eval (mask : List ℕ) (a : ℝ) (t : List ℝ) :
    surprise (a :: t) mask
      = divX (XR.fin (((a :: t).map (fun x => Real.exp (x - foldMaxR a t))).sum))
          (XR.fin (sumExpMaskedFrom mask (foldMaxR a t) 0 (a :: t))) := by
  have hmax : jsMaxGo XR.ninf ((a :: t).map XR.fin) = XR.fin (foldMaxR a t) := by
    rw [List.map_cons]
    exact jsMaxGo_fin t a
  simp only [surprise, hmax, surSumsGo_fin, zero_add]

/-- C4 (amended): surprise equals the ratio of total probability mass to
masked-out probability mass (the shared-max trick cancels) whenever the
masked-out mass is nonzero; when the mask excludes nothing, the
masked-out mass is 0 and the JS division by zero yields +infinity, not
1.0; the value is exactly 1.0 when the mask excludes everything. -/
theorem surprise_matches_spec (l : List ℝ) (mask : List ℕ) (hne : l ≠ []) :
    (maskedOutExpSum l mask ≠ 0 →
        surprise l mask = XR.fin (allExpSum l / maskedOutExpSum l mask)) ∧
    ((∀ i, i < l.length → isAllowed mask i = true) → surprise l mask = XR.pinf) ∧
    ((∀ i, i < l.length → isAllowed mask i = false) → surprise l mask = XR.fin 1) := by
  obtain ⟨a, t, rfl⟩ : ∃ a t, l = a :: t := by
    cases l with
    | nil => exact absurd rfl hne
    | cons a t => exact ⟨a, t, rfl⟩
  have heval := surprise_eval mask a t
  have hexpM : Real.exp (foldMaxR a t) ≠ 0 := (Real.exp_pos (foldMaxR a t)).ne'
  have hnum : 0 < ((a :: t).map (fun x => Real.exp (x - foldMaxR a t))).sum :=
    expSum_pos (a :: t) (foldMaxR a t) (List.cons_ne_nil a t)
  refine ⟨?_, ?_, ?_⟩
  · intro hmo
    have hmo' : maskedOutExpSumFrom mask 0 (a :: t) ≠ 0 := hmo
    rw [heval, sumExpMaskedFrom_eq, expShiftSum_eq]
    have hden : maskedOutExpSumFrom mask 0 (a :: t) / Real.exp (foldMaxR a t) ≠ 0 :=
      div_ne_zero hmo' hexpM
    have hfold : maskedOutExpSum (a :: t) mask = maskedOutExpSumFrom mask 0 (a :: t) := rfl
    simp only [divX, if_neg hden, XR.fin.injEq, hfold]
    field_simp
  · intro hall
    have hm0 : sumExpMaskedFrom mask (foldMaxR a t) 0 (a :: t) = 0 := by
      apply sumExpMaskedFrom_zero
      intro k hk
      simpa using hall k hk
    rw [heval, hm0]
    simp only [divX, if_true]
    rw [if_neg hnum.ne', if_neg (not_lt.mpr hnum.le)]
  · intro hall
    have hmA : sumExpMaskedFrom mask (foldMaxR a t) 0 (a :: t)
        = ((a :: t).map (fun x => Real.exp (x - foldMaxR a t))).sum := by
      apply sumExpMaskedFrom_all
      intro k hk
      simpa using hall k hk
    rw [heval, hmA]
    simp only [divX, if_neg hnum.ne', XR.fin.injEq]
    exact div_self hnum.ne'

/-- C4 counterexample: with the mask that allows the full vocabulary
(excludes nothing) the masked-out sum is 0 and surprise is +infinity,
not exactly 1.0; moreover on the empty vector it is NaN. -/
theorem surprise_full_mask_not_one :
    surprise [0] [1] = XR.pinf ∧
    surprise [0] [1] ≠ XR.fin 1 ∧
    surprise ([] : List ℝ) [] = XR.nan := by
  have h0 : isAllowed [1] 0 = true := by decide
  have hp : surprise [0] [1] = XR.pinf := by
    simp [surprise, surSumsGo, jsMaxGo, gtX, addX, subX, expX, divX, h0]
  refine ⟨hp, ?_, ?_⟩
  · rw [hp]
    simp
  · simp [surprise, surSumsGo, jsMaxGo, divX]

/-- C4 witness: the ratio form on a two-entry vector whose mask allows
index 0 only, and the exactly-1.0 value under the nothing-allowed mask. -/
theorem surprise_matches_spec_witness :
    surprise [0, 0] [1] = XR.fin (allExpSum [0, 0] / maskedOutExpSum [0, 0] [1]) ∧
    surprise [0, 0] [0] = XR.fin 1 := by
  have hA0 : isAllowed [1] 0 = true := by decide
  have hA1 : isAllowed [1] 1 = false := by decide
  have hmo : maskedOutExpSum [0, 0] [1] = Real.exp 0 := by
    simp [maskedOutExpSum, maskedOutExpSumFrom, hA0, hA1]
  have h := surprise_matches_spec [0, 0] [1] (by simp)
  have h2 := surprise_matches_spec [0, 0] [0] (by simp)
  constructor
  · exact h.1 (by rw [hmo]; positivity)
  · refine h2.2.2 ?_
    intro i hi
    simp at hi
    interval_cases i <;> decide

/-! Theorems for the token-metadata encoding. -/

theorem tokenInfoGo_ok (t : Tok) (tokPref : ℕ) :
    ∀ (idxs acc out : List ℕ),
      tokenInfoGo t tokPref acc idxs = Except.ok out →
      out = acc ++ idxs.flatMap (entryRecord t tokPref) ∧
      ∀ i ∈ idxs, ∃ en, tokenEntry t tokPref i = Except.ok en ∧ en.2.length ≤ 0xff := by
  intro idxs
  induction idxs with
  | nil =>
      intro acc out h
      simp only [tokenInfoGo] at h
      cases h
      simp
  | cons j rest ih =>
      intro acc out h
      cases he : tokenEntry t tokPref j with
      | error e => simp [tokenInfoGo, he] at h
      | ok en =>
          simp only [tokenInfoGo, he] at h
          by_cases hl : 0xff < en.2.length
          · rw [if_pos hl] at h
            simp at h
          · rw [if_neg hl] at h
            obtain ⟨h1, h2⟩ := ih _ _ h
            constructor
            · rw [h1]
              simp [entryRecord, he]
            · intro i hi
              rcases List.mem_cons.mp hi with rfl | hmem
              · exact ⟨en, he, not_lt.mp hl⟩
              · exact h2 i hmem

theorem tokenInfoGo_too_long (t : Tok) (tokPref : ℕ) :
    ∀ (idxs acc : List ℕ) (i : ℕ) (en : Bool × List ℕ),
      i ∈ idxs → tokenEntry t tokPref i = Except.ok en → 0xff < en.2.length →
      ∀ out, tokenInfoGo t tokPref acc idxs ≠ Except.ok out := by
  intro idxs
  induction idxs with
  | nil =>
      intro acc i en hi
      exact absurd hi (List.not_mem_nil i)
  | cons j rest ih =>
      intro acc i en hi he hlen out h
      cases hej : tokenEntry t tokPref j with
      | error e => simp [tokenInfoGo, hej] at h
      | ok enj =>
          simp only [tokenInfoGo, hej] at h
          by_cases hl : 0xff < enj.2.length
          · rw [if_pos hl] at h
            simp at h
          · rw [if_neg hl] at h
            rcases List.mem_cons.mp hi with rfl | hmem
            · have hen : en = enj := by
                rw [he] at hej
                exact Except.ok.inj hej
              exact hl (hen ▸ hlen)
            · exact ih _ i en hmem he hlen out h

/-- C9: whenever tokenInfo succeeds, its output is, for each vocabulary
id in increasing order, exactly one flags byte (0x40 when the token is
special, 0 otherwise), then one byte holding the UTF-8 byte length of
the token's text (at most 255), then exactly that many raw bytes; and
tokenInfo fails with a hard error whenever some well-formed token's byte
representation exceeds 255 bytes. -/
theorem tokenInfo_format (t : Tok) :
    (∀ i en, tokenEntry t ((t.encode TOKENIZER_PREFIX).getLastD 0) i = Except.ok en →
       entryRecord t ((t.encode TOKENIZER_PREFIX).getLastD 0) i
         = (if en.1 then 0x40 else 0) :: en.2.length :: en.2) ∧
    (∀ out, tokenInfo t = Except.ok out →
       out = (List.range t.getVocabSize).flatMap
           (entryRecord t ((t.encode TOKENIZER_PREFIX).getLastD 0)) ∧
       ∀ i, i < t.getVocabSize →
         ∃ en, tokenEntry t ((t.encode TOKENIZER_PREFIX).getLastD 0) i = Except.ok en ∧
           en.2.length ≤ 0xff) ∧
    (∀ i en, i < t.getVocabSize →
       tokenEntry t ((t.encode TOKENIZER_PREFIX).getLastD 0) i = Except.ok en →
       0xff < en.2.length → ∀ out, tokenInfo t ≠ Except.ok out) := by
  refine ⟨?_, ?_, ?_⟩
  · intro i en he
    unfold entryRecord
    rw [he]
  · intro out h
    obtain ⟨h1, h2⟩ := tokenInfoGo_ok t _ (List.range t.getVocabSize) [] out h
    exact ⟨by simpa using h1, fun i hi => h2 i (List.mem_range.mpr hi)⟩
  · intro i en hi he hlen out
    exact tokenInfoGo_too_long t _ (List.range t.getVocabSize) [] i en
      (List.mem_range.mpr hi) he hlen out

set_option maxRecDepth 8192 in
/-- C9 witness: the two-token tokenizer encodes to the expected record
list, and the 300-byte tokenizer is rejected. -/
theorem tokenInfo_format_witness :
    tokenInfo tokA = Except.ok [0, 1, 97, 64, 3, 60, 115, 62] ∧
    ([0, 1, 97, 64, 3, 60, 115, 62] : List ℕ)
      = (List.range tokA.getVocabSize).flatMap
          (entryRecord tokA ((tokA.encode TOKENIZER_PREFIX).getLastD 0)) ∧
    tokenInfo tokLong ≠ Except.ok [] := by
  refine ⟨rfl, ?_, ?_⟩
  · exact ((tokenInfo_format tokA).2.1 _ rfl).1
  · exact (tokenInfo_format tokLong).2.2 0 (false, List.replicate 300 97)
      (by decide) rfl (by decide) []

/-! Theorems for the tokens-getter heap model. -/

/-- C10: the tokens getter returns a fresh copy of the internal token
history: the returned array's contents equal the internal ones, its
reference is distinct from the internal array's, mutating the returned
array never changes the internal array, and two successive reads with no
intervening mutation of the session return arrays with equal contents. -/
theorem tokens_fresh_copy (h : Heap) (s : SeqRef) (hwf : heapWF h s) :
    (tokensGet h s).2.store (tokensGet h s).1 = h.store s.tokensAddr ∧
    (tokensGet h s).1 ≠ s.tokensAddr ∧
    (∀ j v, (setElem (tokensGet h s).2 (tokensGet h s).1 j v).store s.tokensAddr
        = h.store s.tokensAddr) ∧
    (tokensGet (tokensGet h s).2 s).2.store (tokensGet (tokensGet h s).2 s).1
      = (tokensGet h s).2.store (tokensGet h s).1 := by
  have hne : s.tokensAddr ≠ h.next := Nat.ne_of_lt hwf
  refine ⟨?_, ?_, ?_, ?_⟩
  · simp [tokensGet]
  · exact fun hc => hne hc.symm
  · intro j v
    simp [tokensGet, setElem, hne]
  · simp [tokensGet, hne]

/-- C10 witness at a one-array heap holding [1, 2]. -/
theorem tokens_fresh_copy_witness :
    (tokensGet heapW seqRefW).2.store (tokensGet heapW seqRefW).1
        = heapW.store seqRefW.tokensAddr ∧
    (tokensGet heapW seqRefW).1 ≠ seqRefW.tokensAddr ∧
    (setElem (tokensGet heapW seqRefW).2 (tokensGet heapW seqRefW).1 0 9).store
        seqRefW.tokensAddr = heapW.store seqRefW.tokensAddr := by
  have h := tokens_fresh_copy heapW seqRefW (by decide)
  exact ⟨h.1, h.2.1, h.2.2.1 0 9⟩

end WindowAiLl
